import Mathlib

/-!
Shallow embedding of the order-book core of the bybit-orderflow-bot
repository: src/orderbook/manager.rs, src/orderbook/validation.rs and
src/orderbook/metrics.rs.

Prices and quantities are modelled as rationals.  The single non-finite
value the engine manipulates is f64::from_bits(u64::MAX), a NaN used as
the "no ask" sentinel; it is modelled by the extra constructor Fl.nan.
Every comparison on Fl follows IEEE-754 semantics: any ordered
comparison involving the NaN is false, equality with the NaN is false,
and inequality (the negation of equality) with the NaN is true.
-/

/-- A float as the engine sees it: either a finite value or the NaN
whose bit pattern is u64::MAX (the "infinite" ask sentinel). -/
inductive Fl where
  | nan : Fl
  | val : ℚ → Fl
  deriving DecidableEq, Repr

namespace Fl

/-- IEEE strict less-than: false when either operand is the NaN. -/
def blt : Fl → Fl → Bool
  | val a, val b => decide (a < b)
  | _, _ => false

/-- IEEE strict greater-than: false when either operand is the NaN. -/
def bgt : Fl → Fl → Bool
  | val a, val b => decide (b < a)
  | _, _ => false

/-- IEEE greater-or-equal: false when either operand is the NaN. -/
def bge : Fl → Fl → Bool
  | val a, val b => decide (b ≤ a)
  | _, _ => false

/-- IEEE equality: false when either operand is the NaN. -/
def beq : Fl → Fl → Bool
  | val a, val b => decide (a = b)
  | _, _ => false

/-- IEEE inequality: the negation of IEEE equality, hence true whenever
either operand is the NaN. -/
def bne (a b : Fl) : Bool := !(beq a b)

/-- True exactly on the NaN sentinel. -/
def isNan : Fl → Bool
  | nan => true
  | val _ => false

/-- Addition; NaN propagates. -/
def add : Fl → Fl → Fl
  | val a, val b => val (a + b)
  | _, _ => nan

/-- Subtraction; NaN propagates. -/
def sub : Fl → Fl → Fl
  | val a, val b => val (a - b)
  | _, _ => nan

/-- Division; NaN propagates.  Rational division by zero yields 0 where
IEEE would yield an infinity; no claim in this development exercises a
division by zero. -/
def div : Fl → Fl → Fl
  | val a, val b => val (a / b)
  | _, _ => nan

/-- The finite value under the constructor, defaulting to 0 on the NaN. -/
def toVal : Fl → ℚ
  | nan => 0
  | val a => a

end Fl

/-- One row of the sorted-view cache: src OrderbookLevel. -/
structure OrderbookLevel where
  price : ℚ
  quantity : ℚ
  timestamp : ℕ
  deriving DecidableEq, Repr

/-- The order-book engine state: src struct Orderbook.  The DashMap
stores are modelled as association lists whose insert removes any prior
binding of the key; the two atomic best-price words hold Fl values. -/
structure Orderbook where
  symbol : String
  bids : List (ℚ × ℚ)
  asks : List (ℚ × ℚ)
  sorted_bids : List OrderbookLevel
  sorted_asks : List OrderbookLevel
  best_bid : Fl
  best_ask : Fl
  last_update_time : ℕ
  update_count : ℕ
  deriving DecidableEq

namespace Orderbook

/-- Orderbook::new: empty stores, best_bid holds the bits of 0.0 and
best_ask holds the u64::MAX bit pattern, i.e. the NaN sentinel. -/
def new (symbol : String) : Orderbook :=
  { symbol := symbol
    bids := []
    asks := []
    sorted_bids := []
    sorted_asks := []
    best_bid := Fl.val 0
    best_ask := Fl.nan
    last_update_time := 0
    update_count := 0 }

/-- DashMap::insert on the association-list model: the new binding
replaces any existing binding of the same price. -/
def insertLevel (p q : ℚ) (store : List (ℚ × ℚ)) : List (ℚ × ℚ) :=
  (p, q) :: store.filter (fun e => decide (e.1 ≠ p))

/-- DashMap::remove on the association-list model. -/
def removeLevel (p : ℚ) (store : List (ℚ × ℚ)) : List (ℚ × ℚ) :=
  store.filter (fun e => decide (e.1 ≠ p))

/-- One iteration of the snapshot insertion loops: entries are inserted
only when qty > 0.0. -/
def snapInsert (store : List (ℚ × ℚ)) (pq : ℚ × ℚ) : List (ℚ × ℚ) :=
  if 0 < pq.2 then insertLevel pq.1 pq.2 store else store

/-- Bids are sorted highest price first. -/
def bidRel (a b : OrderbookLevel) : Prop := b.price ≤ a.price

/-- Asks are sorted lowest price first. -/
def askRel (a b : OrderbookLevel) : Prop := a.price ≤ b.price

instance : DecidableRel bidRel :=
  fun a b => inferInstanceAs (Decidable (b.price ≤ a.price))

instance : DecidableRel askRel :=
  fun a b => inferInstanceAs (Decidable (a.price ≤ b.price))

instance : IsTotal OrderbookLevel bidRel :=
  ⟨fun a b => le_total b.price a.price⟩

instance : IsTrans OrderbookLevel bidRel :=
  ⟨fun _ _ _ h1 h2 => le_trans h2 h1⟩

instance : IsTotal OrderbookLevel askRel :=
  ⟨fun a b => le_total a.price b.price⟩

instance : IsTrans OrderbookLevel askRel :=
  ⟨fun _ _ _ h1 h2 => le_trans h1 h2⟩

/-- Orderbook::update_sorted_views.  Each store is materialised into
levels stamped with the current time, sorted (bids descending, asks
ascending by price), the best entry of a non-empty side is published
into the atomic best-price word (an empty side leaves the word
untouched, since the source only stores under if-let Some(best)), and
the sorted views are replaced. -/
def update_sorted_views (ob : Orderbook) (now : ℕ) : Orderbook :=
  let bidLevels := ob.bids.map (fun pq => OrderbookLevel.mk pq.1 pq.2 now)
  let sb := List.insertionSort bidRel bidLevels
  let bb := match sb with
    | [] => ob.best_bid
    | l :: _ => Fl.val l.price
  let askLevels := ob.asks.map (fun pq => OrderbookLevel.mk pq.1 pq.2 now)
  let sa := List.insertionSort askRel askLevels
  let ba := match sa with
    | [] => ob.best_ask
    | l :: _ => Fl.val l.price
  { ob with sorted_bids := sb, best_bid := bb, sorted_asks := sa, best_ask := ba }

/-- Orderbook::apply_snapshot: clear both stores, insert every entry
with qty > 0.0, rebuild the sorted views, stamp the update time and
increment the update counter. -/
def apply_snapshot (ob : Orderbook) (bids asks : List (ℚ × ℚ)) (now : ℕ) : Orderbook :=
  let ob1 := { ob with
    bids := bids.foldl snapInsert []
    asks := asks.foldl snapInsert [] }
  let ob2 := ob1.update_sorted_views now
  { ob2 with last_update_time := now, update_count := ob2.update_count + 1 }

/-- Loop body of the two delta loops.  qty == 0.0 removes the level and
unconditionally marks the best as possibly changed; otherwise the level
is inserted and the flag is set when the incoming price beats the
currently published best according to the given comparison. -/
def deltaStep (best : Fl) (better : ℚ → Fl → Bool)
    (acc : List (ℚ × ℚ) × Bool) (pq : ℚ × ℚ) : List (ℚ × ℚ) × Bool :=
  if pq.2 = 0 then (removeLevel pq.1 acc.1, true)
  else (insertLevel pq.1 pq.2 acc.1, acc.2 || better pq.1 best)

/-- price.0 > current_best, an IEEE comparison against the published
best bid (false when the word decodes to the NaN). -/
def bidBetter (p : ℚ) (best : Fl) : Bool := Fl.bgt (Fl.val p) best

/-- price.0 < current_best, an IEEE comparison against the published
best ask (false when the word decodes to the NaN). -/
def askBetter (p : ℚ) (best : Fl) : Bool := Fl.blt (Fl.val p) best

/-- Orderbook::apply_delta: per-level removal or insertion with the
best-changed heuristic; the sorted views are rebuilt only when a flag
was set; the update time is stamped but the counter is untouched. -/
def apply_delta (ob : Orderbook) (bids asks : List (ℚ × ℚ)) (now : ℕ) : Orderbook :=
  let bres := bids.foldl (deltaStep ob.best_bid bidBetter) (ob.bids, false)
  let ares := asks.foldl (deltaStep ob.best_ask askBetter) (ob.asks, false)
  let ob1 := { ob with bids := bres.1, asks := ares.1 }
  let ob2 := if bres.2 || ares.2 then ob1.update_sorted_views now else ob1
  { ob2 with last_update_time := now }

/-- Orderbook::best_bid_ask: the two published atomic words. -/
def best_bid_ask (ob : Orderbook) : Fl × Fl := (ob.best_bid, ob.best_ask)

/-- Orderbook::mid_price. -/
def mid_price (ob : Orderbook) : Fl :=
  Fl.div (Fl.add ob.best_bid ob.best_ask) (Fl.val 2)

/-- Orderbook::spread_pct: 1.0 when the bid reads as 0.0, otherwise
(ask - bid) / mid. -/
def spread_pct (ob : Orderbook) : Fl :=
  if Fl.beq ob.best_bid (Fl.val 0) then Fl.val 1
  else Fl.div (Fl.sub ob.best_ask ob.best_bid) ob.mid_price

/-- Orderbook::imbalance over the top depth levels of the cached sorted
views. -/
def imbalance (ob : Orderbook) (depth : ℕ) : ℚ :=
  let bid_volume := ((ob.sorted_bids.take depth).map (fun l => l.quantity)).sum
  let ask_volume := ((ob.sorted_asks.take depth).map (fun l => l.quantity)).sum
  if bid_volume + ask_volume = 0 then 0
  else (bid_volume - ask_volume) / (bid_volume + ask_volume)

/-- Orderbook::liquidity_depth over the top depth levels of the cached
sorted views. -/
def liquidity_depth (ob : Orderbook) (depth : ℕ) : ℚ :=
  ((ob.sorted_bids.take depth).map (fun l => l.quantity)).sum
    + ((ob.sorted_asks.take depth).map (fun l => l.quantity)).sum

/-- Orderbook::latency_ms: wall clock minus last update, saturating. -/
def latency_ms (ob : Orderbook) (now : ℕ) : ℕ := now - ob.last_update_time

/-- Modelled from the spec: Orderbook::get_sorted_levels is called by
the validator (validation.rs line 108) but its definition is absent
from src/; per spec section 4.3 the validator checks that the top-N
sorted levels are available on both sides, so the call is modelled as
returning the top N entries of each cached sorted view. -/
def get_sorted_levels (ob : Orderbook) (n : ℕ) : List OrderbookLevel × List OrderbookLevel :=
  (ob.sorted_bids.take n, ob.sorted_asks.take n)

end Orderbook

/-- ValidationResult from src/orderbook/validation.rs. -/
inductive ValidationResult where
  | Valid
  | WideSpread
  | LowLiquidity
  | StaleData
  | PriceAnomaly
  | InsufficientDepth
  deriving DecidableEq, Repr

/-- A calibration measurement.  spread_pct comes from
Orderbook::spread_pct and can therefore carry the NaN; liquidity is a
plain sum of quantities. -/
structure Measurement where
  timestamp_ms : ℕ
  spread_pct : Fl
  liquidity : ℚ
  deriving DecidableEq

/-- ValidationConfig from src/orderbook/validation.rs. -/
structure ValidationConfig where
  max_spread_multiplier : ℚ
  min_liquidity_multiplier : ℚ
  max_data_age_ms : ℕ
  min_depth_levels : ℕ
  enabled : Bool
  deriving DecidableEq

/-- ValidationConfig::default. -/
def ValidationConfig.default : ValidationConfig :=
  { max_spread_multiplier := 3
    min_liquidity_multiplier := 1/4
    max_data_age_ms := 5000
    min_depth_levels := 5
    enabled := true }

/-- OrderbookValidator state. -/
structure OrderbookValidator where
  measurements : List Measurement
  max_history_size : ℕ
  normal_spread_range : ℚ × ℚ
  normal_liquidity_range : ℚ × ℚ
  config : ValidationConfig
  deriving DecidableEq

namespace OrderbookValidator

/-- OrderbookValidator::new. -/
def new (config : ValidationConfig) : OrderbookValidator :=
  { measurements := []
    max_history_size := 100
    normal_spread_range := (0, 1)
    normal_liquidity_range := (0, 100)
    config := config }

/-- The while-pop-front loop that keeps the ring at its cap: drop the
oldest entries past the cap (natural subtraction makes the drop count 0
when the list already fits). -/
def trimTo (cap : ℕ) (l : List Measurement) : List Measurement :=
  l.drop (l.length - cap)

/-- The percentile index (len as f64 * 0.10) as usize.  For every ring
size reachable here (at most 100) the f64 product rounds so that the
truncation agrees with the natural-number division by 10. -/
def p10Idx (n : ℕ) : ℕ := n / 10

/-- The percentile index (len as f64 * 0.90) as usize; for n at most
100 it agrees with 9 * n / 10 in natural numbers. -/
def p90Idx (n : ℕ) : ℕ := 9 * n / 10

/-- OrderbookValidator::update_normal_ranges: push the measurement,
trim the ring to max_history_size, then recompute the 10th/90th
percentile normal ranges from the sorted spreads and liquidities.
The source sorts with partial_cmp(..).unwrap(), which panics on a NaN;
the panic is modelled by returning none whenever a NaN spread is
present (a slight over-approximation for a singleton ring, where the
comparator is never invoked). -/
def update_normal_ranges (v : OrderbookValidator) (spread : Fl) (liq : ℚ)
    (now : ℕ) : Option OrderbookValidator :=
  let ms := trimTo v.max_history_size
    (v.measurements ++ [Measurement.mk now spread liq])
  if ms.isEmpty then some { v with measurements := ms }
  else
    let spreadsF := ms.map (fun m => m.spread_pct)
    if spreadsF.any Fl.isNan then none
    else
      let spreads := List.insertionSort (fun a b => a ≤ b) (spreadsF.map Fl.toVal)
      let liquidities := List.insertionSort (fun a b => a ≤ b) (ms.map (fun m => m.liquidity))
      let i10 := min (p10Idx ms.length) (spreads.length - 1)
      let i90 := min (p90Idx ms.length) (spreads.length - 1)
      some { v with
        measurements := ms
        normal_spread_range := (spreads.getD i10 0, spreads.getD i90 0)
        normal_liquidity_range := (liquidities.getD i10 0, liquidities.getD i90 0) }

/-- OrderbookValidator::validate.  The result is none exactly when the
source would panic (inside update_normal_ranges, on a NaN spread). -/
def validate (v : OrderbookValidator) (ob : Orderbook) (now : ℕ) :
    Option (ValidationResult × OrderbookValidator) :=
  if v.config.enabled = false then some (ValidationResult.Valid, v)
  else
    let bid := ob.best_bid
    let ask := ob.best_ask
    if Fl.bge bid ask && Fl.bne bid (Fl.val 0) && Fl.bne ask Fl.nan then
      some (ValidationResult.PriceAnomaly, v)
    else if Fl.beq bid (Fl.val 0) || Fl.beq ask (Fl.val 0) || Fl.beq ask Fl.nan then
      some (ValidationResult.InsufficientDepth, v)
    else if v.config.max_data_age_ms < ob.latency_ms now then
      some (ValidationResult.StaleData, v)
    else
      let levels := ob.get_sorted_levels v.config.min_depth_levels
      if levels.1.length < v.config.min_depth_levels
          || levels.2.length < v.config.min_depth_levels then
        some (ValidationResult.InsufficientDepth, v)
      else
        let spread := ob.spread_pct
        if 10 ≤ v.measurements.length
            ∧ Fl.bgt spread (Fl.val (v.normal_spread_range.2 * v.config.max_spread_multiplier)) then
          some (ValidationResult.WideSpread, v)
        else
          let liq := ob.liquidity_depth 10
          if 10 ≤ v.measurements.length
              ∧ liq < v.normal_liquidity_range.1 * v.config.min_liquidity_multiplier then
            some (ValidationResult.LowLiquidity, v)
          else
            (v.update_normal_ranges spread liq now).map
              (fun v2 => (ValidationResult.Valid, v2))

/-- OrderbookValidator::is_calibrated. -/
def is_calibrated (v : OrderbookValidator) : Bool := 10 ≤ v.measurements.length

end OrderbookValidator

/-- OrderSide from src/orderbook/metrics.rs. -/
inductive OrderSide where
  | Bid
  | Ask
  deriving DecidableEq, Repr

/-- VolumeSnapshot from src/orderbook/metrics.rs. -/
structure VolumeSnapshot where
  timestamp_ms : ℕ
  bid_volume : ℚ
  ask_volume : ℚ
  total_volume : ℚ
  deriving DecidableEq

/-- LargeOrder from src/orderbook/metrics.rs. -/
structure LargeOrder where
  price : ℚ
  size : ℚ
  side : OrderSide
  timestamp_ms : ℕ
  size_multiplier : ℚ
  deriving DecidableEq

/-- OrderbookMetrics state. -/
structure OrderbookMetrics where
  volume_history : List VolumeSnapshot
  max_history_size : ℕ
  imbalance_by_depth : List (ℕ × ℚ)
  avg_order_size : ℚ
  large_orders : List LargeOrder
  max_large_orders : ℕ
  bid_pressure : ℚ
  ask_pressure : ℚ
  prev_best_bid : ℚ
  prev_best_ask : ℚ
  prev_timestamp_ms : ℕ
  deriving DecidableEq

namespace OrderbookMetrics

/-- OrderbookMetrics::new. -/
def new : OrderbookMetrics :=
  { volume_history := []
    max_history_size := 60
    imbalance_by_depth := []
    avg_order_size := 0
    large_orders := []
    max_large_orders := 20
    bid_pressure := 0
    ask_pressure := 0
    prev_best_bid := 0
    prev_best_ask := 0
    prev_timestamp_ms := 0 }

/-- OrderbookMetrics::add_snapshot: append and evict beyond the ring
size. -/
def add_snapshot (m : OrderbookMetrics) (bid_volume ask_volume : ℚ)
    (now : ℕ) : OrderbookMetrics :=
  let h := m.volume_history
    ++ [VolumeSnapshot.mk now bid_volume ask_volume (bid_volume + ask_volume)]
  { m with volume_history := h.drop (h.length - m.max_history_size) }

/-- OrderbookMetrics::calculate_volume_delta, with the history, the
window and the wall clock made explicit.  With fewer than two snapshots
the result is 0; otherwise the oldest snapshot whose timestamp is at or
after now - window is chosen (falling back to the front of the ring),
and the total-volume change is divided by the elapsed seconds between
that snapshot and the newest one, with 0 returned when no time
elapsed. -/
def calculate_volume_delta (hist : List VolumeSnapshot) (window now : ℕ) : ℚ :=
  match hist with
  | [] => 0
  | h :: t =>
    if (h :: t).length < 2 then 0
    else
      let cur := (h :: t).getLast (List.cons_ne_nil h t)
      let cutoff := now - window
      let old := ((h :: t).find? (fun s => decide (cutoff ≤ s.timestamp_ms))).getD h
      let td : ℚ := ((cur.timestamp_ms - old.timestamp_ms : ℕ) : ℚ) / 1000
      if 0 < td then (cur.total_volume - old.total_volume) / td else 0

/-- OrderbookMetrics::update_avg_order_size: an empty slice leaves the
average untouched, otherwise it is overwritten with the mean quantity
of the given slice. -/
def update_avg_order_size (m : OrderbookMetrics)
    (levels : List (ℚ × ℚ)) : OrderbookMetrics :=
  if levels.isEmpty then m
  else { m with avg_order_size := (levels.map (fun pq => pq.2)).sum / levels.length }

/-- OrderbookMetrics::detect_whales: with a zero average order size the
function returns the empty list before touching any state; otherwise
every level whose quantity strictly exceeds avg * threshold is recorded
on both sides, the records are appended to the large-order ring and the
ring is trimmed to its cap. -/
def detect_whales (m : OrderbookMetrics) (bid_levels ask_levels : List (ℚ × ℚ))
    (threshold_multiplier : ℚ) (now : ℕ) : List LargeOrder × OrderbookMetrics :=
  if m.avg_order_size = 0 then ([], m)
  else
    let threshold := m.avg_order_size * threshold_multiplier
    let bw := (bid_levels.filter (fun pq => decide (threshold < pq.2))).map
      (fun pq => LargeOrder.mk pq.1 pq.2 OrderSide.Bid now (pq.2 / m.avg_order_size))
    let aw := (ask_levels.filter (fun pq => decide (threshold < pq.2))).map
      (fun pq => LargeOrder.mk pq.1 pq.2 OrderSide.Ask now (pq.2 / m.avg_order_size))
    let whales := bw ++ aw
    let lo := m.large_orders ++ whales
    (whales, { m with large_orders := lo.drop (lo.length - m.max_large_orders) })

end OrderbookMetrics

/-- One feed event: a snapshot or a delta, with its arrival time. -/
inductive BookOp where
  | snap (bids asks : List (ℚ × ℚ)) (now : ℕ)
  | delta (bids asks : List (ℚ × ℚ)) (now : ℕ)

/-- Apply one feed event to the engine. -/
def BookOp.apply (ob : Orderbook) : BookOp → Orderbook
  | BookOp.snap b a t => ob.apply_snapshot b a t
  | BookOp.delta b a t => ob.apply_delta b a t

/-- Run a sequence of feed events from a fresh book. -/
def runOps (symbol : String) (ops : List BookOp) : Orderbook :=
  ops.foldl BookOp.apply (Orderbook.new symbol)

/-- All quantities carried by an event are non-negative. -/
def BookOp.nonnegInputs : BookOp → Prop
  | BookOp.snap b a _ => (∀ pq ∈ b, 0 ≤ pq.2) ∧ (∀ pq ∈ a, 0 ≤ pq.2)
  | BookOp.delta b a _ => (∀ pq ∈ b, 0 ≤ pq.2) ∧ (∀ pq ∈ a, 0 ≤ pq.2)

/-- All entries of a price-level store have strictly positive
quantity. -/
def posStore (l : List (ℚ × ℚ)) : Prop := ∀ pq ∈ l, 0 < pq.2

/-! ### Helper lemmas about the sorted views -/

namespace Orderbook

lemma insertionSort_head_mem {α : Type} (r : α → α → Prop) [DecidableRel r]
    {lv t : List α} {l : α} (h : List.insertionSort r lv = l :: t) : l ∈ lv := by
  have : l ∈ List.insertionSort r lv := by rw [h]; exact List.mem_cons_self l t
  rwa [List.mem_insertionSort] at this

lemma insertionSort_head_rel {α : Type} (r : α → α → Prop) [DecidableRel r]
    [IsTotal α r] [IsTrans α r] {lv t : List α} {l : α}
    (h : List.insertionSort r lv = l :: t) : ∀ x ∈ lv, r l x := by
  intro x hx
  have hx2 : x ∈ l :: t := by
    rw [← h, List.mem_insertionSort]; exact hx
  rcases List.mem_cons.mp hx2 with rfl | hx3
  · rcases IsTotal.total (r := r) x x with h1 | h1 <;> exact h1
  · have hs : List.Sorted r (l :: t) := by
      rw [← h]; exact List.sorted_insertionSort r lv
    exact List.rel_of_sorted_cons hs x hx3

lemma best_bid_update_sorted_views (ob : Orderbook) (now : ℕ) :
    (ob.update_sorted_views now).best_bid =
      match List.insertionSort bidRel
          (ob.bids.map (fun pq => OrderbookLevel.mk pq.1 pq.2 now)) with
      | [] => ob.best_bid
      | l :: _ => Fl.val l.price := rfl

lemma best_ask_update_sorted_views (ob : Orderbook) (now : ℕ) :
    (ob.update_sorted_views now).best_ask =
      match List.insertionSort askRel
          (ob.asks.map (fun pq => OrderbookLevel.mk pq.1 pq.2 now)) with
      | [] => ob.best_ask
      | l :: _ => Fl.val l.price := rfl

end Orderbook

/-- Claim C1: after a full sorted-view rebuild, each published best
price equals the extreme price of its side when that side is non-empty
(maximum for bids, minimum for asks).  Amended for the empty case: a
side that is empty at rebuild time leaves its published word unchanged
(the source stores only under if-let Some(best)), so the sentinel (0.0
for the bid, the NaN decoded from the u64::MAX bit pattern for the ask)
is read only while that side has been empty since initialization, not
when a previously non-empty side becomes empty. -/
theorem c1_best_price_after_rebuild (ob : Orderbook) (now : ℕ) :
    (ob.bids ≠ [] →
      ∃ p, (ob.update_sorted_views now).best_bid = Fl.val p
        ∧ (∃ q, (p, q) ∈ ob.bids) ∧ ∀ pq ∈ ob.bids, pq.1 ≤ p)
  ∧ (ob.bids = [] → (ob.update_sorted_views now).best_bid = ob.best_bid)
  ∧ (ob.asks ≠ [] →
      ∃ p, (ob.update_sorted_views now).best_ask = Fl.val p
        ∧ (∃ q, (p, q) ∈ ob.asks) ∧ ∀ pq ∈ ob.asks, p ≤ pq.1)
  ∧ (ob.asks = [] → (ob.update_sorted_views now).best_ask = ob.best_ask)
  ∧ (∀ s, (Orderbook.new s).best_bid = Fl.val 0 ∧ (Orderbook.new s).best_ask = Fl.nan) := by
  refine ⟨?_, ?_, ?_, ?_, fun s => ⟨rfl, rfl⟩⟩
  · intro hne
    rcases hsb : List.insertionSort Orderbook.bidRel
        (ob.bids.map (fun pq => OrderbookLevel.mk pq.1 pq.2 now)) with _ | ⟨l, t⟩
    · exfalso
      have hlen := List.length_insertionSort Orderbook.bidRel
        (ob.bids.map (fun pq => OrderbookLevel.mk pq.1 pq.2 now))
      rw [hsb] at hlen
      simp at hlen
      exact hne (List.length_eq_zero.mp hlen.symm)
    · refine ⟨l.price, ?_, ?_, ?_⟩
      · rw [Orderbook.best_bid_update_sorted_views, hsb]
      · have hmem := Orderbook.insertionSort_head_mem Orderbook.bidRel hsb
        rcases List.mem_map.mp hmem with ⟨pq, hpq, hl⟩
        refine ⟨pq.2, ?_⟩
        have : l.price = pq.1 := by rw [← hl]
        rw [this]
        simpa using hpq
      · intro pq hpq
        have hrel := Orderbook.insertionSort_head_rel Orderbook.bidRel hsb
          (OrderbookLevel.mk pq.1 pq.2 now) (List.mem_map_of_mem _ hpq)
        exact hrel
  · intro hnil
    rw [Orderbook.best_bid_update_sorted_views, hnil]
    rfl
  · intro hne
    rcases hsa : List.insertionSort Orderbook.askRel
        (ob.asks.map (fun pq => OrderbookLevel.mk pq.1 pq.2 now)) with _ | ⟨l, t⟩
    · exfalso
      have hlen := List.length_insertionSort Orderbook.askRel
        (ob.asks.map (fun pq => OrderbookLevel.mk pq.1 pq.2 now))
      rw [hsa] at hlen
      simp at hlen
      exact hne (List.length_eq_zero.mp hlen.symm)
    · refine ⟨l.price, ?_, ?_, ?_⟩
      · rw [Orderbook.best_ask_update_sorted_views, hsa]
      · have hmem := Orderbook.insertionSort_head_mem Orderbook.askRel hsa
        rcases List.mem_map.mp hmem with ⟨pq, hpq, hl⟩
        refine ⟨pq.2, ?_⟩
        have : l.price = pq.1 := by rw [← hl]
        rw [this]
        simpa using hpq
      · intro pq hpq
        have hrel := Orderbook.insertionSort_head_rel Orderbook.askRel hsa
          (OrderbookLevel.mk pq.1 pq.2 now) (List.mem_map_of_mem _ hpq)
        exact hrel
  · intro hnil
    rw [Orderbook.best_ask_update_sorted_views, hnil]
    rfl

namespace Orderbook

lemma insertionSort_ne_nil {α : Type} (r : α → α → Prop) [DecidableRel r]
    {lv : List α} (h : lv ≠ []) : List.insertionSort r lv ≠ [] := by
  intro hc
  have hlen := List.length_insertionSort r lv
  rw [hc] at hlen
  simp at hlen
  exact h (List.length_eq_zero.mp hlen.symm)

lemma foldl_snapInsert_ne_nil (l : List (ℚ × ℚ)) (acc : List (ℚ × ℚ))
    (h : acc ≠ []) : l.foldl snapInsert acc ≠ [] := by
  induction l generalizing acc with
  | nil => exact h
  | cons hd tl ih =>
    apply ih
    unfold snapInsert
    split
    · exact List.cons_ne_nil _ _
    · exact h

lemma exists_pos_snapStore_ne_nil (l : List (ℚ × ℚ)) (acc : List (ℚ × ℚ))
    (h : ∃ pq ∈ l, 0 < pq.2) : l.foldl snapInsert acc ≠ [] := by
  induction l generalizing acc with
  | nil => simp at h
  | cons hd tl ih =>
    by_cases htl : ∃ pq ∈ tl, 0 < pq.2
    · exact ih _ htl
    · have hhd : 0 < hd.2 := by
        rcases h with ⟨pq, hpq, hpos⟩
        rcases List.mem_cons.mp hpq with rfl | hmem
        · exact hpos
        · exact absurd ⟨pq, hmem, hpos⟩ htl
      show tl.foldl snapInsert (snapInsert acc hd) ≠ []
      apply foldl_snapInsert_ne_nil
      unfold snapInsert
      rw [if_pos hhd]
      exact List.cons_ne_nil _ _

lemma bids_apply_snapshot (ob : Orderbook) (b a : List (ℚ × ℚ)) (t : ℕ) :
    (ob.apply_snapshot b a t).bids = b.foldl snapInsert [] := rfl

lemma asks_apply_snapshot (ob : Orderbook) (b a : List (ℚ × ℚ)) (t : ℕ) :
    (ob.apply_snapshot b a t).asks = a.foldl snapInsert [] := rfl

lemma sorted_bids_apply_snapshot (ob : Orderbook) (b a : List (ℚ × ℚ)) (t : ℕ) :
    (ob.apply_snapshot b a t).sorted_bids =
      List.insertionSort bidRel
        ((b.foldl snapInsert []).map (fun pq => OrderbookLevel.mk pq.1 pq.2 t)) := rfl

lemma sorted_asks_apply_snapshot (ob : Orderbook) (b a : List (ℚ × ℚ)) (t : ℕ) :
    (ob.apply_snapshot b a t).sorted_asks =
      List.insertionSort askRel
        ((a.foldl snapInsert []).map (fun pq => OrderbookLevel.mk pq.1 pq.2 t)) := rfl

lemma best_bid_apply_snapshot (ob : Orderbook) (b a : List (ℚ × ℚ)) (t : ℕ) :
    (ob.apply_snapshot b a t).best_bid =
      match List.insertionSort bidRel
          ((b.foldl snapInsert []).map (fun pq => OrderbookLevel.mk pq.1 pq.2 t)) with
      | [] => ob.best_bid
      | l :: _ => Fl.val l.price := rfl

lemma best_ask_apply_snapshot (ob : Orderbook) (b a : List (ℚ × ℚ)) (t : ℕ) :
    (ob.apply_snapshot b a t).best_ask =
      match List.insertionSort askRel
          ((a.foldl snapInsert []).map (fun pq => OrderbookLevel.mk pq.1 pq.2 t)) with
      | [] => ob.best_ask
      | l :: _ => Fl.val l.price := rfl

end Orderbook

/-- Claim C2 (amended): applying the same snapshot at the same time to
any two engine states yields identical stores and identical sorted
views, and identical published best prices for every side on which the
snapshot carries at least one positive-quantity level.  The original
claim fails for a side left empty by the snapshot: there the published
word retains its per-state prior value, so two different prior states
can disagree after the same snapshot (see the counterexample). -/
theorem c2_snapshot_repair (st1 st2 : Orderbook) (bids asks : List (ℚ × ℚ)) (now : ℕ) :
    (st1.apply_snapshot bids asks now).bids = (st2.apply_snapshot bids asks now).bids
  ∧ (st1.apply_snapshot bids asks now).asks = (st2.apply_snapshot bids asks now).asks
  ∧ (st1.apply_snapshot bids asks now).sorted_bids
      = (st2.apply_snapshot bids asks now).sorted_bids
  ∧ (st1.apply_snapshot bids asks now).sorted_asks
      = (st2.apply_snapshot bids asks now).sorted_asks
  ∧ ((∃ pq ∈ bids, 0 < pq.2) →
      (st1.apply_snapshot bids asks now).best_bid
        = (st2.apply_snapshot bids asks now).best_bid)
  ∧ ((∃ pq ∈ asks, 0 < pq.2) →
      (st1.apply_snapshot bids asks now).best_ask
        = (st2.apply_snapshot bids asks now).best_ask) := by
  refine ⟨rfl, rfl, rfl, rfl, ?_, ?_⟩
  · intro h
    have hne : bids.foldl Orderbook.snapInsert [] ≠ [] :=
      Orderbook.exists_pos_snapStore_ne_nil bids [] h
    have hmap : (bids.foldl Orderbook.snapInsert []).map
        (fun pq => OrderbookLevel.mk pq.1 pq.2 now) ≠ [] := by
      simpa using hne
    have hsne := Orderbook.insertionSort_ne_nil Orderbook.bidRel hmap
    rcases hsb : List.insertionSort Orderbook.bidRel
        ((bids.foldl Orderbook.snapInsert []).map
          (fun pq => OrderbookLevel.mk pq.1 pq.2 now)) with _ | ⟨l, t⟩
    · exact absurd hsb hsne
    · rw [Orderbook.best_bid_apply_snapshot, Orderbook.best_bid_apply_snapshot, hsb]
  · intro h
    have hne : asks.foldl Orderbook.snapInsert [] ≠ [] :=
      Orderbook.exists_pos_snapStore_ne_nil asks [] h
    have hmap : (asks.foldl Orderbook.snapInsert []).map
        (fun pq => OrderbookLevel.mk pq.1 pq.2 now) ≠ [] := by
      simpa using hne
    have hsne := Orderbook.insertionSort_ne_nil Orderbook.askRel hmap
    rcases hsa : List.insertionSort Orderbook.askRel
        ((asks.foldl Orderbook.snapInsert []).map
          (fun pq => OrderbookLevel.mk pq.1 pq.2 now)) with _ | ⟨l, t⟩
    · exact absurd hsa hsne
    · rw [Orderbook.best_ask_apply_snapshot, Orderbook.best_ask_apply_snapshot, hsa]

/-- Counterexample to claim C1 as stated: a bid side that was non-empty
and becomes empty does not revert the published best bid to the 0.0
sentinel; the stale previous best (100) is still read. -/
theorem c1_counterexample :
    (((Orderbook.new "T").apply_snapshot [(100, 1)] [(101, 1)] 0).apply_snapshot
        [] [(101, 1)] 1).bids = []
  ∧ (((Orderbook.new "T").apply_snapshot [(100, 1)] [(101, 1)] 0).apply_snapshot
        [] [(101, 1)] 1).best_bid = Fl.val 100 := by
  decide

/-- Witness for c1_best_price_after_rebuild at a concrete book. -/
theorem c1_witness :
    ((Orderbook.new "T").apply_snapshot [(100, 1), (99, 2)] [(101, 1)] 0).bids ≠ []
  ∧ (∃ p, (((Orderbook.new "T").apply_snapshot [(100, 1), (99, 2)] [(101, 1)] 0).update_sorted_views 5).best_bid = Fl.val p
      ∧ (∃ q, (p, q) ∈ ((Orderbook.new "T").apply_snapshot [(100, 1), (99, 2)] [(101, 1)] 0).bids)
      ∧ ∀ pq ∈ ((Orderbook.new "T").apply_snapshot [(100, 1), (99, 2)] [(101, 1)] 0).bids, pq.1 ≤ p) :=
  ⟨by decide,
    (c1_best_price_after_rebuild
      ((Orderbook.new "T").apply_snapshot [(100, 1), (99, 2)] [(101, 1)] 0) 5).1 (by decide)⟩

/-- Counterexample to claim C2 as stated: the same snapshot (empty bid
side) applied to two different prior states leaves different published
best bids, so the post-snapshot state is not a function of the snapshot
arguments alone. -/
theorem c2_counterexample :
    ((Orderbook.new "T").apply_snapshot [] [(101, 1)] 1).best_bid
      ≠ (((Orderbook.new "T").apply_snapshot [(100, 1)] [(101, 1)] 0).apply_snapshot
          [] [(101, 1)] 1).best_bid := by
  decide

/-- Witness for c2_snapshot_repair at concrete states and snapshot. -/
theorem c2_witness :
    (∃ pq ∈ [((100 : ℚ), (1 : ℚ))], 0 < pq.2)
  ∧ ((Orderbook.new "T").apply_snapshot [(100, 1)] [] 3).best_bid
      = (((Orderbook.new "U").apply_snapshot [(50, 2)] [(51, 2)] 0).apply_snapshot
          [(100, 1)] [] 3).best_bid :=
  ⟨by decide,
    (c2_snapshot_repair (Orderbook.new "T")
      ((Orderbook.new "U").apply_snapshot [(50, 2)] [(51, 2)] 0)
      [(100, 1)] [] 3).2.2.2.2.1 (by decide)⟩

namespace Orderbook

lemma mem_insertLevel {x : ℚ × ℚ} {p q : ℚ} {st : List (ℚ × ℚ)}
    (h : x ∈ insertLevel p q st) : x = (p, q) ∨ x ∈ st := by
  rcases List.mem_cons.mp h with h | h
  · exact Or.inl h
  · exact Or.inr (List.mem_filter.mp h).1

lemma mem_removeLevel {x : ℚ × ℚ} {p : ℚ} {st : List (ℚ × ℚ)}
    (h : x ∈ removeLevel p st) : x ∈ st ∧ x.1 ≠ p := by
  have := List.mem_filter.mp h
  exact ⟨this.1, by simpa using this.2⟩

lemma not_mem_removeLevel (p q : ℚ) (st : List (ℚ × ℚ)) :
    (p, q) ∉ removeLevel p st := by
  intro h
  exact (mem_removeLevel h).2 rfl

lemma bids_apply_delta_zero_bid (ob : Orderbook) (p : ℚ) (t : ℕ) :
    (ob.apply_delta [(p, 0)] [] t).bids = removeLevel p ob.bids := by
  simp [apply_delta, deltaStep, update_sorted_views]

lemma sorted_bids_apply_delta_zero_bid (ob : Orderbook) (p : ℚ) (t : ℕ) :
    (ob.apply_delta [(p, 0)] [] t).sorted_bids =
      List.insertionSort bidRel
        ((removeLevel p ob.bids).map (fun pq => OrderbookLevel.mk pq.1 pq.2 t)) := by
  simp [apply_delta, deltaStep, update_sorted_views]

lemma asks_apply_delta_zero_ask (ob : Orderbook) (p : ℚ) (t : ℕ) :
    (ob.apply_delta [] [(p, 0)] t).asks = removeLevel p ob.asks := by
  simp [apply_delta, deltaStep, update_sorted_views]

lemma sorted_asks_apply_delta_zero_ask (ob : Orderbook) (p : ℚ) (t : ℕ) :
    (ob.apply_delta [] [(p, 0)] t).sorted_asks =
      List.insertionSort askRel
        ((removeLevel p ob.asks).map (fun pq => OrderbookLevel.mk pq.1 pq.2 t)) := by
  simp [apply_delta, deltaStep, update_sorted_views]

end Orderbook

/-- Claim C5: a price level present after a snapshot is removed from
the price-level store and from the rebuilt sorted view by a subsequent
delta carrying that price with quantity 0 (the zero-quantity delta sets
the best-changed flag unconditionally, so the rebuild always runs). -/
theorem c5_zero_quantity_deletion (st : Orderbook) (bids asks : List (ℚ × ℚ))
    (t t' : ℕ) (p : ℚ) :
    ((∃ q, (p, q) ∈ (st.apply_snapshot bids asks t).bids) →
      (∀ q, (p, q) ∉ ((st.apply_snapshot bids asks t).apply_delta [(p, 0)] [] t').bids)
      ∧ ∀ l ∈ ((st.apply_snapshot bids asks t).apply_delta [(p, 0)] [] t').sorted_bids,
          l.price ≠ p)
  ∧ ((∃ q, (p, q) ∈ (st.apply_snapshot bids asks t).asks) →
      (∀ q, (p, q) ∉ ((st.apply_snapshot bids asks t).apply_delta [] [(p, 0)] t').asks)
      ∧ ∀ l ∈ ((st.apply_snapshot bids asks t).apply_delta [] [(p, 0)] t').sorted_asks,
          l.price ≠ p) := by
  constructor
  · intro _
    constructor
    · intro q
      rw [Orderbook.bids_apply_delta_zero_bid]
      exact Orderbook.not_mem_removeLevel p q _
    · intro l hl
      rw [Orderbook.sorted_bids_apply_delta_zero_bid] at hl
      rw [List.mem_insertionSort] at hl
      rcases List.mem_map.mp hl with ⟨pq, hpq, hlev⟩
      have hne := (Orderbook.mem_removeLevel hpq).2
      rw [← hlev]
      exact hne
  · intro _
    constructor
    · intro q
      rw [Orderbook.asks_apply_delta_zero_ask]
      exact Orderbook.not_mem_removeLevel p q _
    · intro l hl
      rw [Orderbook.sorted_asks_apply_delta_zero_ask] at hl
      rw [List.mem_insertionSort] at hl
      rcases List.mem_map.mp hl with ⟨pq, hpq, hlev⟩
      have hne := (Orderbook.mem_removeLevel hpq).2
      rw [← hlev]
      exact hne

/-- Witness for c5_zero_quantity_deletion at a concrete book. -/
theorem c5_witness :
    (∃ q, ((100 : ℚ), q) ∈ ((Orderbook.new "T").apply_snapshot [(100, 1), (99, 2)] [(101, 1)] 0).bids)
  ∧ ((∀ q, ((100 : ℚ), q) ∉ (((Orderbook.new "T").apply_snapshot [(100, 1), (99, 2)] [(101, 1)] 0).apply_delta [(100, 0)] [] 1).bids)
      ∧ ∀ l ∈ (((Orderbook.new "T").apply_snapshot [(100, 1), (99, 2)] [(101, 1)] 0).apply_delta [(100, 0)] [] 1).sorted_bids,
          l.price ≠ 100) :=
  ⟨⟨1, by decide⟩,
    (c5_zero_quantity_deletion (Orderbook.new "T") [(100, 1), (99, 2)] [(101, 1)] 0 1 100).1
      ⟨1, by decide⟩⟩

namespace Orderbook

lemma posStore_nil : posStore [] := by
  intro pq h
  simp at h

lemma posStore_insertLevel {st : List (ℚ × ℚ)} {p q : ℚ}
    (hst : posStore st) (hq : 0 < q) : posStore (insertLevel p q st) := by
  intro pq hm
  rcases mem_insertLevel hm with rfl | hm2
  · exact hq
  · exact hst pq hm2

lemma posStore_removeLevel {st : List (ℚ × ℚ)} {p : ℚ}
    (hst : posStore st) : posStore (removeLevel p st) := by
  intro pq hm
  exact hst pq (mem_removeLevel hm).1

lemma posStore_snapFold (l : List (ℚ × ℚ)) (acc : List (ℚ × ℚ))
    (hacc : posStore acc) : posStore (l.foldl snapInsert acc) := by
  induction l generalizing acc with
  | nil => exact hacc
  | cons hd tl ih =>
    apply ih
    unfold snapInsert
    split
    · exact posStore_insertLevel hacc (by assumption)
    · exact hacc

lemma posStore_deltaFold (best : Fl) (better : ℚ → Fl → Bool)
    (l : List (ℚ × ℚ)) (hl : ∀ pq ∈ l, 0 ≤ pq.2)
    (acc : List (ℚ × ℚ) × Bool) (hacc : posStore acc.1) :
    posStore ((l.foldl (deltaStep best better) acc).1) := by
  induction l generalizing acc with
  | nil => exact hacc
  | cons hd tl ih =>
    apply ih (fun pq h => hl pq (List.mem_cons_of_mem hd h))
    unfold deltaStep
    split
    · exact posStore_removeLevel hacc
    · exact posStore_insertLevel hacc
        (lt_of_le_of_ne (hl hd (List.mem_cons_self hd tl)) (Ne.symm (by assumption)))

lemma bids_apply_delta (ob : Orderbook) (b a : List (ℚ × ℚ)) (t : ℕ) :
    (ob.apply_delta b a t).bids =
      (b.foldl (deltaStep ob.best_bid bidBetter) (ob.bids, false)).1 := by
  simp only [apply_delta]
  split <;> rfl

lemma asks_apply_delta (ob : Orderbook) (b a : List (ℚ × ℚ)) (t : ℕ) :
    (ob.apply_delta b a t).asks =
      (a.foldl (deltaStep ob.best_ask askBetter) (ob.asks, false)).1 := by
  simp only [apply_delta]
  split <;> rfl

end Orderbook

instance : (l : List (ℚ × ℚ)) → Decidable (posStore l) :=
  fun l => inferInstanceAs (Decidable (∀ pq ∈ l, 0 < pq.2))

instance : (op : BookOp) → Decidable op.nonnegInputs := fun op =>
  match op with
  | BookOp.snap b a _ =>
      inferInstanceAs (Decidable ((∀ pq ∈ b, 0 ≤ pq.2) ∧ (∀ pq ∈ a, 0 ≤ pq.2)))
  | BookOp.delta b a _ =>
      inferInstanceAs (Decidable ((∀ pq ∈ b, 0 ≤ pq.2) ∧ (∀ pq ∈ a, 0 ≤ pq.2)))

lemma posStore_bookOp (op : BookOp) (h : op.nonnegInputs) (ob : Orderbook)
    (hb : posStore ob.bids) (ha : posStore ob.asks) :
    posStore (op.apply ob).bids ∧ posStore (op.apply ob).asks := by
  cases op with
  | snap b a t =>
    constructor
    · rw [show (BookOp.apply ob (BookOp.snap b a t)).bids
          = b.foldl Orderbook.snapInsert [] from rfl]
      exact Orderbook.posStore_snapFold b [] Orderbook.posStore_nil
    · rw [show (BookOp.apply ob (BookOp.snap b a t)).asks
          = a.foldl Orderbook.snapInsert [] from rfl]
      exact Orderbook.posStore_snapFold a [] Orderbook.posStore_nil
  | delta b a t =>
    constructor
    · rw [show BookOp.apply ob (BookOp.delta b a t) = ob.apply_delta b a t from rfl,
          Orderbook.bids_apply_delta]
      exact Orderbook.posStore_deltaFold _ _ b h.1 (ob.bids, false) hb
    · rw [show BookOp.apply ob (BookOp.delta b a t) = ob.apply_delta b a t from rfl,
          Orderbook.asks_apply_delta]
      exact Orderbook.posStore_deltaFold _ _ a h.2 (ob.asks, false) ha

lemma posStore_foldOps (ops : List BookOp) (ob : Orderbook)
    (h : ∀ op ∈ ops, op.nonnegInputs)
    (hb : posStore ob.bids) (ha : posStore ob.asks) :
    posStore ((ops.foldl BookOp.apply ob).bids)
      ∧ posStore ((ops.foldl BookOp.apply ob).asks) := by
  induction ops generalizing ob with
  | nil => exact ⟨hb, ha⟩
  | cons op tl ih =>
    have hstep := posStore_bookOp op (h op (List.mem_cons_self op tl)) ob hb ha
    exact ih (BookOp.apply ob op) (fun o ho => h o (List.mem_cons_of_mem op ho))
      hstep.1 hstep.2

/-- Claim C6: for every sequence of snapshot and delta events whose
input quantities are all non-negative, every entry of the bid store and
of the ask store has strictly positive quantity after each completed
call (quantifying over all event prefixes from a fresh book). -/
theorem c6_positive_store_invariant (s : String) (ops : List BookOp)
    (h : ∀ op ∈ ops, op.nonnegInputs) :
    posStore (runOps s ops).bids ∧ posStore (runOps s ops).asks :=
  posStore_foldOps ops (Orderbook.new s) h Orderbook.posStore_nil Orderbook.posStore_nil

/-- Witness for c6_positive_store_invariant on a concrete event
sequence containing a snapshot, an insertion delta and a deletion
delta. -/
theorem c6_witness :
    (∀ op ∈ [BookOp.snap [(100, 1), (99, 2)] [(101, 1)] 0,
             BookOp.delta [(100, 0), (98, 5)] [(102, 3)] 1], op.nonnegInputs)
  ∧ (posStore (runOps "T" [BookOp.snap [(100, 1), (99, 2)] [(101, 1)] 0,
        BookOp.delta [(100, 0), (98, 5)] [(102, 3)] 1]).bids
      ∧ posStore (runOps "T" [BookOp.snap [(100, 1), (99, 2)] [(101, 1)] 0,
          BookOp.delta [(100, 0), (98, 5)] [(102, 3)] 1]).asks) :=
  ⟨by decide,
    c6_positive_store_invariant "T"
      [BookOp.snap [(100, 1), (99, 2)] [(101, 1)] 0,
       BookOp.delta [(100, 0), (98, 5)] [(102, 3)] 1] (by decide)⟩

/-- Claim C7: imbalance sums the quantities over the top depth entries
of each cached sorted side; it equals (bid_vol - ask_vol) divided by
(bid_vol + ask_vol) whenever that denominator is non-zero, it is
exactly 0 when both top-depth volumes are zero, and for sorted views
whose quantities are all non-negative it lies in the interval from -1
to 1. -/
theorem c7_imbalance_bounds (ob : Orderbook) (depth : ℕ) :
    (((ob.sorted_bids.take depth).map (fun l => l.quantity)).sum = 0 →
     ((ob.sorted_asks.take depth).map (fun l => l.quantity)).sum = 0 →
     ob.imbalance depth = 0)
  ∧ (((ob.sorted_bids.take depth).map (fun l => l.quantity)).sum
        + ((ob.sorted_asks.take depth).map (fun l => l.quantity)).sum ≠ 0 →
     ob.imbalance depth =
       (((ob.sorted_bids.take depth).map (fun l => l.quantity)).sum
          - ((ob.sorted_asks.take depth).map (fun l => l.quantity)).sum)
        / (((ob.sorted_bids.take depth).map (fun l => l.quantity)).sum
          + ((ob.sorted_asks.take depth).map (fun l => l.quantity)).sum))
  ∧ ((∀ l ∈ ob.sorted_bids, 0 ≤ l.quantity) →
     (∀ l ∈ ob.sorted_asks, 0 ≤ l.quantity) →
     -1 ≤ ob.imbalance depth ∧ ob.imbalance depth ≤ 1) := by
  refine ⟨?_, ?_, ?_⟩
  · intro hb ha
    simp only [Orderbook.imbalance]
    rw [hb, ha]
    norm_num
  · intro hne
    simp only [Orderbook.imbalance]
    rw [if_neg hne]
  · intro hbq haq
    have hb0 : 0 ≤ ((ob.sorted_bids.take depth).map (fun l => l.quantity)).sum := by
      apply List.sum_nonneg
      intro x hx
      rcases List.mem_map.mp hx with ⟨l, hl, hlx⟩
      rw [← hlx]
      exact hbq l (List.take_subset depth ob.sorted_bids hl)
    have ha0 : 0 ≤ ((ob.sorted_asks.take depth).map (fun l => l.quantity)).sum := by
      apply List.sum_nonneg
      intro x hx
      rcases List.mem_map.mp hx with ⟨l, hl, hlx⟩
      rw [← hlx]
      exact haq l (List.take_subset depth ob.sorted_asks hl)
    simp only [Orderbook.imbalance]
    split
    · norm_num
    · rename_i hz
      have hpos : 0 < ((ob.sorted_bids.take depth).map (fun l => l.quantity)).sum
          + ((ob.sorted_asks.take depth).map (fun l => l.quantity)).sum :=
        lt_of_le_of_ne (add_nonneg hb0 ha0) (Ne.symm hz)
      constructor
      · rw [le_div_iff₀ hpos]
        linarith
      · rw [div_le_one hpos]
        linarith

/-- Witness for c7_imbalance_bounds at a concrete book. -/
theorem c7_witness :
    (∀ l ∈ ((Orderbook.new "T").apply_snapshot [(100, 3)] [(101, 1)] 0).sorted_bids, 0 ≤ l.quantity)
  ∧ (∀ l ∈ ((Orderbook.new "T").apply_snapshot [(100, 3)] [(101, 1)] 0).sorted_asks, 0 ≤ l.quantity)
  ∧ (-1 ≤ ((Orderbook.new "T").apply_snapshot [(100, 3)] [(101, 1)] 0).imbalance 2
      ∧ ((Orderbook.new "T").apply_snapshot [(100, 3)] [(101, 1)] 0).imbalance 2 ≤ 1) :=
  ⟨by decide, by decide,
    (c7_imbalance_bounds ((Orderbook.new "T").apply_snapshot [(100, 3)] [(101, 1)] 0) 2).2.2
      (by decide) (by decide)⟩

namespace Orderbook

/-- Restamping every level of a store-derived list and sorting commutes
with sorting first and restamping afterwards: the comparators only read
the price. -/
lemma insertionSort_bid_retime (S : List (ℚ × ℚ)) (t1 t2 : ℕ) :
    List.insertionSort bidRel (S.map (fun pq => OrderbookLevel.mk pq.1 pq.2 t2))
      = (List.insertionSort bidRel (S.map (fun pq => OrderbookLevel.mk pq.1 pq.2 t1))).map
          (fun l => OrderbookLevel.mk l.price l.quantity t2) := by
  have h := List.map_insertionSort (r := bidRel) (s := bidRel)
    (f := fun l => OrderbookLevel.mk l.price l.quantity t2)
    (S.map (fun pq => OrderbookLevel.mk pq.1 pq.2 t1))
    (by intro a _ b _; exact Iff.rfl)
  rw [List.map_map] at h
  exact h.symm

lemma insertionSort_ask_retime (S : List (ℚ × ℚ)) (t1 t2 : ℕ) :
    List.insertionSort askRel (S.map (fun pq => OrderbookLevel.mk pq.1 pq.2 t2))
      = (List.insertionSort askRel (S.map (fun pq => OrderbookLevel.mk pq.1 pq.2 t1))).map
          (fun l => OrderbookLevel.mk l.price l.quantity t2) := by
  have h := List.map_insertionSort (r := askRel) (s := askRel)
    (f := fun l => OrderbookLevel.mk l.price l.quantity t2)
    (S.map (fun pq => OrderbookLevel.mk pq.1 pq.2 t1))
    (by intro a _ b _; exact Iff.rfl)
  rw [List.map_map] at h
  exact h.symm

/-- The quantity projection of the top-depth restamped levels is the
quantity projection of the top-depth original levels. -/
lemma take_map_quantity_retime (lv : List OrderbookLevel) (d : ℕ) (t : ℕ) :
    (((lv.map (fun l => OrderbookLevel.mk l.price l.quantity t)).take d).map
        (fun l => l.quantity))
      = ((lv.take d).map (fun l => l.quantity)) := by
  rw [← List.map_take, List.map_map]
  rfl

end Orderbook

/-- Claim C9: applying the same snapshot twice in succession yields the
same best_bid_ask, the same imbalance at every depth and the same
liquidity_depth at every depth as applying it once (the second
application only refreshes the sorted-view timestamps, which none of
these observables read). -/
theorem c9_snapshot_idempotence (st : Orderbook) (bids asks : List (ℚ × ℚ)) (t1 t2 : ℕ) :
    ((st.apply_snapshot bids asks t1).apply_snapshot bids asks t2).best_bid_ask
      = (st.apply_snapshot bids asks t1).best_bid_ask
  ∧ (∀ d, ((st.apply_snapshot bids asks t1).apply_snapshot bids asks t2).imbalance d
      = (st.apply_snapshot bids asks t1).imbalance d)
  ∧ (∀ d, ((st.apply_snapshot bids asks t1).apply_snapshot bids asks t2).liquidity_depth d
      = (st.apply_snapshot bids asks t1).liquidity_depth d) := by
  have hsb : ((st.apply_snapshot bids asks t1).apply_snapshot bids asks t2).sorted_bids
      = ((st.apply_snapshot bids asks t1).sorted_bids).map
          (fun l => OrderbookLevel.mk l.price l.quantity t2) := by
    rw [Orderbook.sorted_bids_apply_snapshot, Orderbook.sorted_bids_apply_snapshot]
    exact Orderbook.insertionSort_bid_retime _ t1 t2
  have hsa : ((st.apply_snapshot bids asks t1).apply_snapshot bids asks t2).sorted_asks
      = ((st.apply_snapshot bids asks t1).sorted_asks).map
          (fun l => OrderbookLevel.mk l.price l.quantity t2) := by
    rw [Orderbook.sorted_asks_apply_snapshot, Orderbook.sorted_asks_apply_snapshot]
    exact Orderbook.insertionSort_ask_retime _ t1 t2
  have hbb : ((st.apply_snapshot bids asks t1).apply_snapshot bids asks t2).best_bid
      = (st.apply_snapshot bids asks t1).best_bid := by
    have htwice : ((st.apply_snapshot bids asks t1).apply_snapshot bids asks t2).best_bid
        = match (List.insertionSort Orderbook.bidRel
              ((bids.foldl Orderbook.snapInsert []).map
                (fun pq => OrderbookLevel.mk pq.1 pq.2 t1))).map
              (fun l => OrderbookLevel.mk l.price l.quantity t2) with
          | [] => (st.apply_snapshot bids asks t1).best_bid
          | l :: _ => Fl.val l.price := by
      rw [Orderbook.best_bid_apply_snapshot, Orderbook.insertionSort_bid_retime _ t1 t2]
    rcases hc : List.insertionSort Orderbook.bidRel
        ((bids.foldl Orderbook.snapInsert []).map
          (fun pq => OrderbookLevel.mk pq.1 pq.2 t1)) with _ | ⟨l, tl⟩
    · rw [htwice, hc]
      simp
    · rw [htwice, hc, Orderbook.best_bid_apply_snapshot st bids asks t1, hc]
      simp
  have hba : ((st.apply_snapshot bids asks t1).apply_snapshot bids asks t2).best_ask
      = (st.apply_snapshot bids asks t1).best_ask := by
    have htwice : ((st.apply_snapshot bids asks t1).apply_snapshot bids asks t2).best_ask
        = match (List.insertionSort Orderbook.askRel
              ((asks.foldl Orderbook.snapInsert []).map
                (fun pq => OrderbookLevel.mk pq.1 pq.2 t1))).map
              (fun l => OrderbookLevel.mk l.price l.quantity t2) with
          | [] => (st.apply_snapshot bids asks t1).best_ask
          | l :: _ => Fl.val l.price := by
      rw [Orderbook.best_ask_apply_snapshot, Orderbook.insertionSort_ask_retime _ t1 t2]
    rcases hc : List.insertionSort Orderbook.askRel
        ((asks.foldl Orderbook.snapInsert []).map
          (fun pq => OrderbookLevel.mk pq.1 pq.2 t1)) with _ | ⟨l, tl⟩
    · rw [htwice, hc]
      simp
    · rw [htwice, hc, Orderbook.best_ask_apply_snapshot st bids asks t1, hc]
      simp
  refine ⟨?_, ?_, ?_⟩
  · simp only [Orderbook.best_bid_ask]
    rw [hbb, hba]
  · intro d
    simp only [Orderbook.imbalance]
    rw [hsb, hsa, Orderbook.take_map_quantity_retime, Orderbook.take_map_quantity_retime]
  · intro d
    simp only [Orderbook.liquidity_depth]
    rw [hsb, hsa, Orderbook.take_map_quantity_retime, Orderbook.take_map_quantity_retime]

/-- Claim C3: with validation enabled, a book whose published best bid
and best ask are both initialized finite values with best_bid at least
best_ask classifies as PriceAnomaly for every validator state, i.e.
the crossed-book check has the highest priority and wins even when any
lower-priority condition also holds.  (The config flag enabled, absent
from the spec, must be true: a disabled validator short-circuits to
Valid.) -/
theorem c3_crossed_book_priority (v : OrderbookValidator) (ob : Orderbook) (now : ℕ)
    (b a : ℚ) (hen : v.config.enabled = true)
    (hb : ob.best_bid = Fl.val b) (ha : ob.best_ask = Fl.val a)
    (hb0 : b ≠ 0) (hba : a ≤ b) :
    v.validate ob now = some (ValidationResult.PriceAnomaly, v) := by
  unfold OrderbookValidator.validate
  rw [hen, hb, ha]
  simp [Fl.bge, Fl.bne, Fl.beq, hba, hb0]

/-- Witness for c3_crossed_book_priority: the crossed book bid 50002 /
ask 50001 from the spec, against a freshly configured validator. -/
theorem c3_witness :
    (OrderbookValidator.new ValidationConfig.default).config.enabled = true
  ∧ ((Orderbook.new "T").apply_snapshot [(50002, 1)] [(50001, 1)] 0).best_bid = Fl.val 50002
  ∧ ((Orderbook.new "T").apply_snapshot [(50002, 1)] [(50001, 1)] 0).best_ask = Fl.val 50001
  ∧ (OrderbookValidator.new ValidationConfig.default).validate
      ((Orderbook.new "T").apply_snapshot [(50002, 1)] [(50001, 1)] 0) 0
      = some (ValidationResult.PriceAnomaly, OrderbookValidator.new ValidationConfig.default) :=
  ⟨rfl, by decide, by decide,
    c3_crossed_book_priority (OrderbookValidator.new ValidationConfig.default)
      ((Orderbook.new "T").apply_snapshot [(50002, 1)] [(50001, 1)] 0) 0
      50002 50001 rfl (by decide) (by decide) (by decide) (by decide)⟩


namespace OrderbookValidator

lemma update_normal_ranges_measurements (v : OrderbookValidator) (s : Fl) (l : ℚ)
    (t : ℕ) (v2 : OrderbookValidator) (h : v.update_normal_ranges s l t = some v2) :
    v2.measurements = trimTo v.max_history_size
      (v.measurements ++ [Measurement.mk t s l]) := by
  simp only [update_normal_ranges] at h
  split at h
  · cases h
    rfl
  · split at h
    · cases h
    · cases h
      rfl

lemma length_trimTo_le (cap : ℕ) (l : List Measurement) :
    (trimTo cap l).length ≤ cap := by
  unfold trimTo
  rw [List.length_drop]
  omega

lemma validate_cases (v : OrderbookValidator) (ob : Orderbook) (now : ℕ)
    (r : ValidationResult) (v2 : OrderbookValidator)
    (h : v.validate ob now = some (r, v2)) :
    (v.config.enabled = false ∧ r = ValidationResult.Valid ∧ v2 = v)
  ∨ (v.config.enabled = true ∧ r ≠ ValidationResult.Valid ∧ v2 = v
      ∧ ((r = ValidationResult.WideSpread ∨ r = ValidationResult.LowLiquidity) →
          10 ≤ v.measurements.length))
  ∨ (v.config.enabled = true ∧ r = ValidationResult.Valid
      ∧ v.update_normal_ranges ob.spread_pct (ob.liquidity_depth 10) now = some v2) := by
  simp only [validate] at h
  by_cases hen : v.config.enabled = false
  · rw [if_pos hen] at h
    injection h with h2
    injection h2 with hr hv
    subst hr
    subst hv
    left
    exact ⟨hen, rfl, rfl⟩
  · rw [if_neg hen] at h
    have hen2 : v.config.enabled = true := by
      simpa using hen
    split at h
    · injection h with h2
      injection h2 with hr hv
      subst hr
      subst hv
      right; left
      exact ⟨hen2, by simp, rfl, by simp⟩
    · split at h
      · injection h with h2
        injection h2 with hr hv
        subst hr
        subst hv
        right; left
        exact ⟨hen2, by simp, rfl, by simp⟩
      · split at h
        · injection h with h2
          injection h2 with hr hv
          subst hr
          subst hv
          right; left
          exact ⟨hen2, by simp, rfl, by simp⟩
        · split at h
          · injection h with h2
            injection h2 with hr hv
            subst hr
            subst hv
            right; left
            exact ⟨hen2, by simp, rfl, by simp⟩
          · split at h
            · rename_i hcond
              injection h with h2
              injection h2 with hr hv
              subst hr
              subst hv
              right; left
              exact ⟨hen2, by simp, rfl, fun _ => hcond.1⟩
            · split at h
              · rename_i hcond
                injection h with h2
                injection h2 with hr hv
                subst hr
                subst hv
                right; left
                exact ⟨hen2, by simp, rfl, fun _ => hcond.1⟩
              · rcases Option.map_eq_some'.mp h with ⟨v3, hup, heq⟩
                injection heq with hr hv
                subst hr
                subst hv
                right; right
                exact ⟨hen2, rfl, hup⟩

end OrderbookValidator

/-- Claim C4 (amended): a non-Valid call to validate never mutates the
validator, so a measurement is appended only on a Valid outcome; when
validation is enabled, a measurement carrying the current spread_pct
and top-10 liquidity is appended exactly on a Valid return (the ring
then being trimmed at its cap); with validation disabled the call
returns Valid without recording anything, which refutes the
unconditional "if and only if" of the original claim.  The ring never
exceeds 100 entries, and WideSpread or LowLiquidity is never returned
while fewer than 10 measurements exist. -/
theorem c4_calibration_gating (v : OrderbookValidator) (ob : Orderbook) (now : ℕ)
    (r : ValidationResult) (v2 : OrderbookValidator)
    (h : v.validate ob now = some (r, v2)) :
    (r ≠ ValidationResult.Valid → v2 = v)
  ∧ (v.config.enabled = true → r = ValidationResult.Valid →
      v2.measurements = OrderbookValidator.trimTo v.max_history_size
        (v.measurements ++ [Measurement.mk now ob.spread_pct (ob.liquidity_depth 10)]))
  ∧ (v.max_history_size = 100 → v.measurements.length ≤ 100 →
      v2.measurements.length ≤ 100)
  ∧ (v.measurements.length < 10 →
      r ≠ ValidationResult.WideSpread ∧ r ≠ ValidationResult.LowLiquidity) := by
  rcases OrderbookValidator.validate_cases v ob now r v2 h with
    ⟨hen, hr, hv⟩ | ⟨hen, hr, hv, hws⟩ | ⟨hen, hr, hup⟩
  · refine ⟨fun _ => hv, fun htrue _ => ?_, fun _ h100 => ?_, fun _ => ?_⟩
    · rw [hen] at htrue
      cases htrue
    · rw [hv]
      exact h100
    · rw [hr]
      exact ⟨fun hc => (by cases hc), fun hc => (by cases hc)⟩
  · refine ⟨fun _ => hv, fun _ hval => absurd hval hr, fun _ h100 => ?_, fun hlen => ?_⟩
    · rw [hv]
      exact h100
    · constructor
      · intro hc
        have := hws (Or.inl hc)
        omega
      · intro hc
        have := hws (Or.inr hc)
        omega
  · have hms := OrderbookValidator.update_normal_ranges_measurements v _ _ now v2 hup
    refine ⟨fun hne => absurd hr hne, fun _ _ => hms, fun h100 _ => ?_, fun _ => ?_⟩
    · rw [hms, h100]
      exact OrderbookValidator.length_trimTo_le 100 _
    · rw [hr]
      exact ⟨fun hc => (by cases hc), fun hc => (by cases hc)⟩

/-- Counterexample to claim C4 as stated: with validation disabled the
call returns Valid yet appends nothing to the calibration ring, so
"appended if and only if the call returns Valid" fails. -/
theorem c4_counterexample :
    (OrderbookValidator.new { ValidationConfig.default with enabled := false }).validate
        (Orderbook.new "T") 0
      = some (ValidationResult.Valid,
          OrderbookValidator.new { ValidationConfig.default with enabled := false })
  ∧ (OrderbookValidator.new
      { ValidationConfig.default with enabled := false }).measurements = [] :=
  ⟨rfl, rfl⟩

/-- Witness for c4_calibration_gating at a concrete call: a fresh book
against the default-configured validator classifies as
InsufficientDepth and leaves the validator unchanged. -/
theorem c4_witness :
    (OrderbookValidator.new ValidationConfig.default).validate (Orderbook.new "T") 0
      = some (ValidationResult.InsufficientDepth,
          OrderbookValidator.new ValidationConfig.default)
  ∧ ((ValidationResult.InsufficientDepth ≠ ValidationResult.Valid →
        OrderbookValidator.new ValidationConfig.default
          = OrderbookValidator.new ValidationConfig.default)
    ∧ ((OrderbookValidator.new ValidationConfig.default).config.enabled = true →
        ValidationResult.InsufficientDepth = ValidationResult.Valid →
        (OrderbookValidator.new ValidationConfig.default).measurements =
          OrderbookValidator.trimTo
            (OrderbookValidator.new ValidationConfig.default).max_history_size
            ((OrderbookValidator.new ValidationConfig.default).measurements ++
              [Measurement.mk 0 (Orderbook.new "T").spread_pct
                ((Orderbook.new "T").liquidity_depth 10)]))
    ∧ ((OrderbookValidator.new ValidationConfig.default).max_history_size = 100 →
        (OrderbookValidator.new ValidationConfig.default).measurements.length ≤ 100 →
        (OrderbookValidator.new ValidationConfig.default).measurements.length ≤ 100)
    ∧ ((OrderbookValidator.new ValidationConfig.default).measurements.length < 10 →
        ValidationResult.InsufficientDepth ≠ ValidationResult.WideSpread
          ∧ ValidationResult.InsufficientDepth ≠ ValidationResult.LowLiquidity)) :=
  ⟨rfl,
    c4_calibration_gating (OrderbookValidator.new ValidationConfig.default)
      (Orderbook.new "T") 0 ValidationResult.InsufficientDepth
      (OrderbookValidator.new ValidationConfig.default) rfl⟩

namespace OrderbookMetrics

lemma find?_min_ts {hist : List VolumeSnapshot} {p : VolumeSnapshot → Bool}
    {x : VolumeSnapshot}
    (hs : hist.Pairwise (fun s1 s2 => s1.timestamp_ms ≤ s2.timestamp_ms))
    (hf : hist.find? p = some x) :
    ∀ y ∈ hist, p y = true → x.timestamp_ms ≤ y.timestamp_ms := by
  induction hist with
  | nil => cases hf
  | cons h t ih =>
    by_cases hp : p h = true
    · rw [List.find?_cons_of_pos _ hp] at hf
      injection hf with hx
      subst hx
      intro y hy _
      rcases List.mem_cons.mp hy with rfl | hyt
      · exact le_refl _
      · exact (List.pairwise_cons.mp hs).1 y hyt
    · rw [List.find?_cons_of_neg _ (by simpa using hp)] at hf
      intro y hy hpy
      rcases List.mem_cons.mp hy with rfl | hyt
      · exact absurd hpy hp
      · exact ih (List.pairwise_cons.mp hs).2 hf y hyt hpy

lemma ts_le_getLast {l : List VolumeSnapshot}
    (hs : l.Pairwise (fun s1 s2 => s1.timestamp_ms ≤ s2.timestamp_ms))
    (hne : l ≠ []) (x : VolumeSnapshot) (hx : x ∈ l) :
    x.timestamp_ms ≤ (l.getLast hne).timestamp_ms := by
  induction l with
  | nil => exact absurd rfl hne
  | cons h t ih =>
    cases t with
    | nil =>
      rcases List.mem_cons.mp hx with rfl | hxt
      · exact le_refl _
      · cases hxt
    | cons h2 t2 =>
      rw [List.getLast_cons (List.cons_ne_nil h2 t2)]
      rcases List.mem_cons.mp hx with rfl | hxt
      · exact (List.pairwise_cons.mp hs).1 _
          (List.getLast_mem (List.cons_ne_nil h2 t2))
      · exact ih (List.pairwise_cons.mp hs).2 (List.cons_ne_nil h2 t2) hxt

end OrderbookMetrics

/-- Claim C8: calculate_volume_delta returns 0 with fewer than two
stored snapshots; otherwise (for a time-ordered history) it selects the
oldest snapshot whose timestamp lies within the trailing window,
falling back to the oldest stored snapshot when none does, and returns
the total-volume change divided by the elapsed seconds between that
snapshot and the newest one (both sides read 0 when no time elapsed,
the division then being by zero). -/
theorem c8_volume_delta_selection (hist : List VolumeSnapshot) (window now : ℕ) :
    (hist.length < 2 → OrderbookMetrics.calculate_volume_delta hist window now = 0)
  ∧ (hist.Pairwise (fun s1 s2 => s1.timestamp_ms ≤ s2.timestamp_ms) →
      2 ≤ hist.length →
      ∃ old cur, hist.getLast? = some cur ∧ old ∈ hist
        ∧ ((now - window ≤ old.timestamp_ms
              ∧ ∀ s ∈ hist, now - window ≤ s.timestamp_ms →
                  old.timestamp_ms ≤ s.timestamp_ms)
            ∨ ((∀ s ∈ hist, s.timestamp_ms < now - window)
              ∧ hist.head? = some old
              ∧ ∀ s ∈ hist, old.timestamp_ms ≤ s.timestamp_ms))
        ∧ OrderbookMetrics.calculate_volume_delta hist window now
            = (cur.total_volume - old.total_volume)
              / (((cur.timestamp_ms : ℚ) - (old.timestamp_ms : ℚ)) / 1000)) := by
  rcases hist with _ | ⟨h, t⟩
  · refine ⟨fun _ => rfl, fun _ hlen => ?_⟩
    simp at hlen
  · constructor
    · intro hlt
      simp only [OrderbookMetrics.calculate_volume_delta]
      rw [if_pos hlt]
    · intro hs hlen
      have hne2 : ¬ (h :: t).length < 2 := by omega
      cases hfind : (h :: t).find? (fun s => decide (now - window ≤ s.timestamp_ms)) with
      | some x =>
        have hxmem : x ∈ h :: t := List.mem_of_find?_eq_some hfind
        have hxle : x.timestamp_ms
            ≤ ((h :: t).getLast (List.cons_ne_nil h t)).timestamp_ms :=
          OrderbookMetrics.ts_le_getLast hs (List.cons_ne_nil h t) x hxmem
        refine ⟨x, (h :: t).getLast (List.cons_ne_nil h t),
          (List.getLast?_eq_getLast _ _).symm ▸ rfl, hxmem, Or.inl ⟨?_, ?_⟩, ?_⟩
        · have := List.find?_some hfind
          simpa using this
        · intro s hsm hcut
          exact OrderbookMetrics.find?_min_ts hs hfind s hsm (by simpa using hcut)
        · simp only [OrderbookMetrics.calculate_volume_delta]
          rw [if_neg hne2, hfind]
          simp only [Option.getD_some]
          by_cases hteq : x.timestamp_ms
              = ((h :: t).getLast (List.cons_ne_nil h t)).timestamp_ms
          · rw [if_neg]
            · rw [← hteq]
              simp
            · rw [← hteq]
              simp
          · have hlt2 : x.timestamp_ms
                < ((h :: t).getLast (List.cons_ne_nil h t)).timestamp_ms :=
              lt_of_le_of_ne hxle hteq
            rw [if_pos, Nat.cast_sub hxle]
            have : (0 : ℚ) < (((h :: t).getLast (List.cons_ne_nil h t)).timestamp_ms
                - x.timestamp_ms : ℕ) := by
              rw [Nat.cast_pos]
              omega
            positivity
      | none =>
        have hall : ∀ s ∈ h :: t, s.timestamp_ms < now - window := by
          intro s hsm
          have := List.find?_eq_none.mp hfind s hsm
          simp at this
          omega
        have hhle : ∀ s ∈ h :: t, h.timestamp_ms ≤ s.timestamp_ms := by
          intro s hsm
          rcases List.mem_cons.mp hsm with rfl | hst
          · exact le_refl _
          · exact (List.pairwise_cons.mp hs).1 s hst
        have hxle : h.timestamp_ms
            ≤ ((h :: t).getLast (List.cons_ne_nil h t)).timestamp_ms :=
          OrderbookMetrics.ts_le_getLast hs (List.cons_ne_nil h t) h
            (List.mem_cons_self h t)
        refine ⟨h, (h :: t).getLast (List.cons_ne_nil h t),
          (List.getLast?_eq_getLast _ _).symm ▸ rfl, List.mem_cons_self h t,
          Or.inr ⟨hall, rfl, hhle⟩, ?_⟩
        simp only [OrderbookMetrics.calculate_volume_delta]
        rw [if_neg hne2, hfind]
        simp only [Option.getD_none]
        by_cases hteq : h.timestamp_ms
            = ((h :: t).getLast (List.cons_ne_nil h t)).timestamp_ms
        · rw [if_neg]
          · rw [← hteq]
            simp
          · rw [← hteq]
            simp
        · have hlt2 : h.timestamp_ms
              < ((h :: t).getLast (List.cons_ne_nil h t)).timestamp_ms :=
            lt_of_le_of_ne hxle hteq
          rw [if_pos, Nat.cast_sub hxle]
          have : (0 : ℚ) < (((h :: t).getLast (List.cons_ne_nil h t)).timestamp_ms
              - h.timestamp_ms : ℕ) := by
            rw [Nat.cast_pos]
            omega
          positivity

/-- Witness for c8_volume_delta_selection on a concrete two-snapshot
history. -/
theorem c8_witness :
    ([VolumeSnapshot.mk 1000 10 8 18, VolumeSnapshot.mk 2000 12 9 21].Pairwise
        (fun s1 s2 => s1.timestamp_ms ≤ s2.timestamp_ms))
  ∧ 2 ≤ [VolumeSnapshot.mk 1000 10 8 18, VolumeSnapshot.mk 2000 12 9 21].length
  ∧ (∃ old cur,
      [VolumeSnapshot.mk 1000 10 8 18, VolumeSnapshot.mk 2000 12 9 21].getLast?
          = some cur
      ∧ old ∈ [VolumeSnapshot.mk 1000 10 8 18, VolumeSnapshot.mk 2000 12 9 21]
      ∧ ((3000 - 5000 ≤ old.timestamp_ms
            ∧ ∀ s ∈ [VolumeSnapshot.mk 1000 10 8 18, VolumeSnapshot.mk 2000 12 9 21],
                3000 - 5000 ≤ s.timestamp_ms → old.timestamp_ms ≤ s.timestamp_ms)
          ∨ ((∀ s ∈ [VolumeSnapshot.mk 1000 10 8 18, VolumeSnapshot.mk 2000 12 9 21],
                s.timestamp_ms < 3000 - 5000)
            ∧ [VolumeSnapshot.mk 1000 10 8 18,
                VolumeSnapshot.mk 2000 12 9 21].head? = some old
            ∧ ∀ s ∈ [VolumeSnapshot.mk 1000 10 8 18, VolumeSnapshot.mk 2000 12 9 21],
                old.timestamp_ms ≤ s.timestamp_ms))
      ∧ OrderbookMetrics.calculate_volume_delta
          [VolumeSnapshot.mk 1000 10 8 18, VolumeSnapshot.mk 2000 12 9 21] 5000 3000
            = (cur.total_volume - old.total_volume)
              / (((cur.timestamp_ms : ℚ) - (old.timestamp_ms : ℚ)) / 1000)) :=
  ⟨by decide, by decide,
    (c8_volume_delta_selection
      [VolumeSnapshot.mk 1000 10 8 18, VolumeSnapshot.mk 2000 12 9 21] 5000 3000).2
      (by decide) (by decide)⟩

/-- Claim C10: when the tracked average order size is 0 (its initial
value, unchanged until update_avg_order_size sees a non-empty slice),
detect_whales returns the empty list and leaves the large-order ring
untouched, for every choice of levels and threshold multiplier. -/
theorem c10_whales_zero_avg (m : OrderbookMetrics)
    (bid_levels ask_levels : List (ℚ × ℚ)) (thr : ℚ) (now : ℕ)
    (h : m.avg_order_size = 0) :
    (m.detect_whales bid_levels ask_levels thr now).1 = []
  ∧ (m.detect_whales bid_levels ask_levels thr now).2.large_orders
      = m.large_orders := by
  simp only [OrderbookMetrics.detect_whales]
  rw [if_pos h]
  exact ⟨rfl, rfl⟩

/-- Witness for c10_whales_zero_avg on a fresh metrics engine with
large levels and a small threshold. -/
theorem c10_witness :
    OrderbookMetrics.new.avg_order_size = 0
  ∧ ((OrderbookMetrics.new.detect_whales [(100, 5)] [(101, 9)] 3 0).1 = []
      ∧ (OrderbookMetrics.new.detect_whales [(100, 5)] [(101, 9)] 3 0).2.large_orders
          = OrderbookMetrics.new.large_orders) :=
  ⟨rfl, c10_whales_zero_avg OrderbookMetrics.new [(100, 5)] [(101, 9)] 3 0 rfl⟩
